import Mathlib

/-!
# Verification of the md2html converter (`main.go`)

A shallow embedding of the Go program `main.go` of `u1i/md2html`, together
with theorems checking the natural-language specification against it.

Modelling conventions:
* Go strings are embedded as `List Char`; Go byte slices as `List Nat`
  (each entry `< 256`).
* The two regex substitution passes of `rewriteMarkdownLinks` (patterns
  `(?m)([^!])\[([^\]]*)\]\(([^)]+)\)` and `(?m)^\[([^\]]*)\]\(([^)]+)\)`)
  and the one of `embedImages` (pattern `!\[([^\]]*)\]\(([^)]+)\)`) are
  embedded as left-to-right scanners.  Since `]` cannot occur in the text
  class and `)` cannot occur in the target class, a match attempt at a
  given start position is deterministic, and `ReplaceAllStringFunc`'s
  leftmost non-overlapping semantics is exactly: try a match at each
  position from the left; on success emit the replacement and continue
  scanning immediately after the matched span.
* External collaborators (the gomarkdown renderer, `filepath.Dir`,
  `filepath.Join`, the file system reads of `ioutil.ReadFile`, and the
  success of `ioutil.WriteFile`) are opaque function parameters.
* `encoding/base64` `StdEncoding` and `strings`/`path/filepath` helpers
  used by the program are modelled concretely below.
-/

namespace MdToHtml

/-- Split a list at the first occurrence of the character `stop`:
returns the (stop-free) part before it and the part after it, or `none`
when `stop` does not occur.  This is the deterministic core of matching
a greedy character class `[^stop]*` followed by the literal `stop`. -/
def splitAtChar (stop : Char) : List Char → Option (List Char × List Char)
  | [] => none
  | c :: cs =>
    if c = stop then some ([], cs)
    else
      match splitAtChar stop cs with
      | none => none
      | some (a, b) => some (c :: a, b)

/-- Match the common tail of all three regex patterns at the head of the
input: `\[([^\]]*)\]\(([^)]+)\)`.  On success, return the captured link
text, the captured (nonempty) target, and the remainder of the input. -/
def matchLink (l : List Char) : Option (List Char × List Char × List Char) :=
  match l with
  | [] => none
  | c :: rest =>
    if c = '[' then
      match splitAtChar ']' rest with
      | none => none
      | some (text, rest1) =>
        match rest1 with
        | [] => none
        | c2 :: rest2 =>
          if c2 = '(' then
            match splitAtChar ')' rest2 with
            | none => none
            | some (target, rest3) =>
              if target = [] then none else some (text, target, rest3)
          else none
    else none

/-- The target rewrite shared by both closures of `rewriteMarkdownLinks`
in `main.go`: keep `http://`, `https://` and `#` targets, change a
trailing `.md` into `.html` (via `strings.TrimSuffix` + `".html"`),
keep everything else. -/
def rewriteLinkURL (u : List Char) : List Char :=
  if "http://".data.isPrefixOf u || "https://".data.isPrefixOf u
      || "#".data.isPrefixOf u then u
  else if ".md".data.isSuffixOf u then
    u.take (u.length - ".md".data.length) ++ ".html".data
  else u

theorem splitAtChar_eq_some {stop : Char} : ∀ {l a b : List Char},
    splitAtChar stop l = some (a, b) → l = a ++ stop :: b ∧ stop ∉ a
  | [], a, b, h => by simp [splitAtChar] at h
  | c :: cs, a, b, h => by
    by_cases hc : c = stop
    · rw [splitAtChar, if_pos hc] at h
      injection h with h
      injection h with h1 h2
      subst h1; subst h2; subst hc
      simp
    · rw [splitAtChar, if_neg hc] at h
      match hs : splitAtChar stop cs with
      | none => rw [hs] at h; exact absurd h (by simp)
      | some (p, q) =>
        rw [hs] at h
        injection h with h
        injection h with h1 h2
        subst h1; subst h2
        obtain ⟨ih1, ih2⟩ := splitAtChar_eq_some hs
        subst ih1
        refine ⟨by simp, ?_⟩
        simp only [List.mem_cons, not_or]
        exact ⟨fun hsc => hc hsc.symm, ih2⟩

theorem splitAtChar_of_not_mem {stop : Char} {a : List Char} (b : List Char)
    (h : stop ∉ a) : splitAtChar stop (a ++ stop :: b) = some (a, b) := by
  induction a with
  | nil => simp [splitAtChar]
  | cons c cs ih =>
    simp only [List.mem_cons, not_or] at h
    rw [List.cons_append, splitAtChar, if_neg (fun hh => h.1 hh.symm),
      ih h.2]

theorem matchLink_nil : matchLink [] = none := rfl

theorem matchLink_cons_of_head {c : Char} (l : List Char) (hc : c ≠ '[') :
    matchLink (c :: l) = none := by
  rw [matchLink, if_neg hc]

theorem matchLink_mk {text target : List Char} (rest : List Char)
    (ht : ']' ∉ text) (hu : ')' ∉ target) (hne : target ≠ []) :
    matchLink ('[' :: (text ++ ']' :: '(' :: (target ++ ')' :: rest)))
      = some (text, target, rest) := by
  rw [matchLink, if_pos rfl, splitAtChar_of_not_mem _ ht]
  dsimp only
  rw [if_pos rfl, splitAtChar_of_not_mem _ hu]
  dsimp only
  rw [if_neg hne]

theorem matchLink_eq_some : ∀ {l text target rest : List Char},
    matchLink l = some (text, target, rest) →
    l = '[' :: (text ++ ']' :: '(' :: (target ++ ')' :: rest))
      ∧ ']' ∉ text ∧ ')' ∉ target ∧ target ≠ []
  | [], _, _, _, h => absurd h (by simp [matchLink])
  | c :: rest0, text, target, rest, h => by
    by_cases hc : c = '['
    · subst hc
      rw [matchLink, if_pos rfl] at h
      match hs : splitAtChar ']' rest0 with
      | none => rw [hs] at h; exact absurd h (by simp)
      | some (t, rest1) =>
        rw [hs] at h
        obtain ⟨hd, hm⟩ := splitAtChar_eq_some hs
        match rest1, hs, hd with
        | [], hs, hd => exact absurd h (by simp)
        | c2 :: rest2, hs, hd =>
          dsimp only at h
          by_cases hc2 : c2 = '('
          · subst hc2
            rw [if_pos rfl] at h
            match hs2 : splitAtChar ')' rest2 with
            | none => rw [hs2] at h; exact absurd h (by simp)
            | some (u, rest3) =>
              rw [hs2] at h
              dsimp only at h
              obtain ⟨hd2, hm2⟩ := splitAtChar_eq_some hs2
              by_cases hu : u = []
              · rw [if_pos hu] at h; exact absurd h (by simp)
              · rw [if_neg hu] at h
                injection h with h
                injection h with h1 h
                injection h with h2 h3
                subst h1; subst h2; subst h3
                subst hd2; subst hd
                exact ⟨rfl, hm, hm2, hu⟩
          · rw [if_neg hc2] at h; exact absurd h (by simp)
    · rw [matchLink_cons_of_head _ hc] at h
      exact absurd h (by simp)

theorem matchLink_shrink {l text target rest : List Char}
    (h : matchLink l = some (text, target, rest)) : rest.length < l.length := by
  have hd := (matchLink_eq_some h).1
  subst hd
  simp only [List.length_cons, List.length_append]
  omega

/-- Pass 1 of `rewriteMarkdownLinks`: the substitution of
`(?m)([^!])\[([^\]]*)\]\(([^)]+)\)`.  A match consumes the character
before the bracket (which must not be `!`); the replacement
`fmt.Sprintf("%s[%s](%s)", prefix, linkText, linkURL)` re-emits the
consumed character, the link text, and the (possibly rewritten) target.
Scanning continues after the matched span, exactly as
`ReplaceAllStringFunc` does. -/
def scanLinks1 (l : List Char) : List Char :=
  match l with
  | [] => []
  | c :: rest =>
    if c = '!' then c :: scanLinks1 rest
    else
      match h : matchLink rest with
      | some (text, target, r) =>
        c :: '[' :: (text ++ ']' :: '(' :: (rewriteLinkURL target ++ ')' :: scanLinks1 r))
      | none => c :: scanLinks1 rest
termination_by l.length
decreasing_by
  · simp
  · have := matchLink_shrink h
    simp only [List.length_cons] at this ⊢
    omega
  · simp

/-- Pass 2 of `rewriteMarkdownLinks`: the substitution of
`(?m)^\[([^\]]*)\]\(([^)]+)\)`, which only matches with the opening
bracket at the start of a line.  `atStart` records whether the current
position is the start of the string or right after a newline. -/
def scanLinks2 (atStart : Bool) (l : List Char) : List Char :=
  match l with
  | [] => []
  | c :: rest =>
    if atStart then
      match h : matchLink (c :: rest) with
      | some (text, target, r) =>
        '[' :: (text ++ ']' :: '(' :: (rewriteLinkURL target ++ ')' :: scanLinks2 false r))
      | none => c :: scanLinks2 (c == '\n') rest
    else c :: scanLinks2 (c == '\n') rest
termination_by l.length
decreasing_by
  · have := matchLink_shrink h
    simp only [List.length_cons] at this ⊢
    omega
  · simp
  · simp

/-- `rewriteMarkdownLinks` of `main.go`: pass 1 followed by pass 2 on
pass 1's output. -/
def rewriteMarkdownLinks (mdContent : List Char) : List Char :=
  scanLinks2 true (scanLinks1 mdContent)

/-- `strings.TrimSuffix(l, suf)`: drop `suf` from the end when it is a
suffix, otherwise return `l` unchanged. -/
def trimSuffix (l suf : List Char) : List Char :=
  if suf.isSuffixOf l then l.take (l.length - suf.length) else l

/-- One character of `strings.ToLower`, i.e. `unicode.ToLower`'s simple
lowercase mapping, kept exact on every character whose lowercase is an
ASCII character.  Exactly three kinds of characters have an ASCII simple
lowercase: the ASCII uppercase letters `A`..`Z`, U+0130 (LATIN CAPITAL
LETTER I WITH DOT ABOVE, lowercase `i`) and U+212A (KELVIN SIGN,
lowercase `k`); the model maps those as Unicode does.  Every other
character is kept unchanged, which can disagree with Unicode only by a
non-ASCII result — and `getMimeType`, the model's sole consumer, only
compares the lowered extension against all-ASCII table keys, where any
non-ASCII character fails the comparison exactly as its real lowercase
would. -/
def toLowerChar (c : Char) : Char :=
  if 'A' ≤ c ∧ c ≤ 'Z' then Char.ofNat (c.toNat + 32)
  else if c = '\u0130' then 'i'
  else if c = '\u212A' then 'k'
  else c

/-- `strings.ToLower`: the character-wise lowering of `toLowerChar`
over the string (Go's ASCII fast path and its rune-wise
`strings.Map(unicode.ToLower, s)` are both character-wise). -/
def stringsToLower (l : List Char) : List Char := l.map toLowerChar

/-- `path/filepath.Ext` with the Unix path separator `/`: the suffix of
the path starting at the last dot of its last slash-separated element,
or empty when that element has no dot. -/
def pathExt (p : List Char) : List Char :=
  let r := p.reverse.takeWhile (fun c => c ≠ '/')
  if '.' ∈ r then '.' :: (r.takeWhile (fun c => c ≠ '.')).reverse else []

/-- `getMimeType` of `main.go`: lowercase the extension of `filename`
and look it up in the fixed table, defaulting to `image/png`.  The Go
map literal is rendered as a chain of key comparisons. -/
def getMimeType (filename : List Char) : List Char :=
  let ext := stringsToLower (pathExt filename)
  if ext = ".jpg".data then "image/jpeg".data
  else if ext = ".jpeg".data then "image/jpeg".data
  else if ext = ".png".data then "image/png".data
  else if ext = ".gif".data then "image/gif".data
  else if ext = ".bmp".data then "image/bmp".data
  else if ext = ".webp".data then "image/webp".data
  else if ext = ".svg".data then "image/svg+xml".data
  else if ext = ".ico".data then "image/x-icon".data
  else "image/png".data

/-- The standard base64 alphabet (RFC 4648), as used by Go's
`base64.StdEncoding`. -/
def b64Alphabet : List Char :=
  "ABCDEFGHIJKLMNOPQRSTUVWXYZabcdefghijklmnopqrstuvwxyz0123456789+/".data

/-- The alphabet character of a 6-bit value. -/
def b64Char (n : Nat) : Char := b64Alphabet.getD n '='

/-- The 6-bit value of an alphabet character, if any. -/
def b64Value (c : Char) : Option Nat :=
  go b64Alphabet 0
where
  go : List Char → Nat → Option Nat
    | [], _ => none
    | a :: as, i => if a = c then some i else go as (i + 1)

/-- `base64.StdEncoding.EncodeToString`: standard alphabet, `=` padding.
Three input bytes become four characters; a final group of one or two
bytes is padded with `==` or `=`. -/
def base64Encode : List Nat → List Char
  | [] => []
  | [a] => [b64Char (a / 4), b64Char (a % 4 * 16), '=', '=']
  | [a, b] => [b64Char (a / 4), b64Char (a % 4 * 16 + b / 16), b64Char (b % 16 * 4), '=']
  | a :: b :: c :: rest =>
    b64Char (a / 4) :: b64Char (a % 4 * 16 + b / 16)
      :: b64Char (b % 16 * 4 + c / 64) :: b64Char (c % 64) :: base64Encode rest

/-- Standard base64 decoding (standard alphabet, with padding): the
inverse direction of the round-trip law for `base64Encode`.  A `=`-padded
group is only legal as the final four characters. -/
def base64Decode : List Char → Option (List Nat)
  | [] => some []
  | c1 :: c2 :: c3 :: c4 :: rest =>
    if c3 = '=' ∧ c4 = '=' ∧ rest = [] then do
      let a ← b64Value c1
      let b ← b64Value c2
      if b % 16 = 0 then some [a * 4 + b / 16] else none
    else if c4 = '=' ∧ rest = [] then do
      let a ← b64Value c1
      let b ← b64Value c2
      let c ← b64Value c3
      if c % 4 = 0 then some [a * 4 + b / 16, b % 16 * 16 + c / 4] else none
    else do
      let a ← b64Value c1
      let b ← b64Value c2
      let c ← b64Value c3
      let d ← b64Value c4
      let tail ← base64Decode rest
      some ((a * 4 + b / 16) :: (b % 16 * 16 + c / 4) :: (c % 4 * 64 + d) :: tail)
  | _ => none

/-- The per-target body of `embedImages`'s replacement closure, given the
file reader `read` (which is `ioutil.ReadFile` composed with the
`filepath.Join` path resolution): skip `http://`/`https://`/`data:`
targets; otherwise read the file and on success build the
`data:<mime>;base64,<b64>` URI (the MIME type is inferred from the
original `imgPath`, not the joined path).  The second component lists
the warning subjects: the `imgPath` of a failed read, printed by
`fmt.Printf("Warning: Could not read image %s: %v\n", ...)`. -/
def embedImageURL (read : List Char → Option (List Nat)) (u : List Char) :
    List Char × List (List Char) :=
  if "http://".data.isPrefixOf u || "https://".data.isPrefixOf u
      || "data:".data.isPrefixOf u then (u, [])
  else
    match read u with
    | none => (u, [u])
    | some imgData =>
      ("data:".data ++ getMimeType u ++ ";base64,".data ++ base64Encode imgData, [])

/-- The substitution pass of `embedImages`: the pattern
`!\[([^\]]*)\]\(([^)]+)\)` scanned left to right with non-overlapping
matches; each match `![alt](target)` is replaced by
`fmt.Sprintf("![%s](%s)", altText, newTarget)`.  Also accumulates the
warning subjects of failed image reads, in input order. -/
def scanImages (read : List Char → Option (List Nat)) (l : List Char) :
    List Char × List (List Char) :=
  match l with
  | [] => ([], [])
  | c :: rest =>
    if c = '!' then
      match h : matchLink rest with
      | some (alt, target, r) =>
        ('!' :: '[' :: (alt ++ ']' :: '(' :: ((embedImageURL read target).1
            ++ ')' :: (scanImages read r).1)),
          (embedImageURL read target).2 ++ (scanImages read r).2)
      | none => (c :: (scanImages read rest).1, (scanImages read rest).2)
    else (c :: (scanImages read rest).1, (scanImages read rest).2)
termination_by l.length
decreasing_by
  · have := matchLink_shrink h
    simp only [List.length_cons] at this ⊢
    omega
  · simp
  · simp

/-- `embedImages` of `main.go`.  `fs` stands for `ioutil.ReadFile` and
`join` for `filepath.Join`; the image bytes of target `u` are read from
`join baseDir u`.  The result mirrors Go's `(string, error)` pair — the
function always returns a `nil` error — extended with the list of
warning subjects it printed. -/
def embedImages (mdContent : List Char) (baseDir : List Char)
    (fs : List Char → Option (List Nat))
    (join : List Char → List Char → List Char) :
    (List Char × List (List Char)) × Option (List Char) :=
  (scanImages (fun u => fs (join baseDir u)) mdContent, none)

/-- `strings.ReplaceAll(fontFamily, " ", "+")` of `createHTMLDocument`:
for a one-character pattern, `ReplaceAll` is exactly a character map. -/
def fontURLOf (fontFamily : List Char) : List Char :=
  fontFamily.map (fun c => if c = ' ' then '+' else c)

/-- The HTML template of `createHTMLDocument` before its `<title>`
element. -/
def htmlTmplHead : String :=
  "<!DOCTYPE html>\n<html lang=\"en\">\n<head>\n    <meta charset=\"UTF-8\">\n"
    ++ "    <meta name=\"viewport\" content=\"width=device-width, initial-scale=1.0\">\n"
    ++ "    "

/-- The template up to the `<title>` verb. -/
def htmlTmpl1 : String := htmlTmplHead ++ "<title>"

/-- The template between `</title>` and the `family=` query key: the
preconnect and stylesheet link heads. -/
def htmlTmplFonts : String :=
  "\n    <link rel=\"preconnect\" href=\"https://fonts.googleapis.com\">\n"
    ++ "    <link rel=\"preconnect\" href=\"https://fonts.gstatic.com\" crossorigin>\n"
    ++ "    <link href=\"https://fonts.googleapis.com/css2?"

/-- The template between the title verb and the Google-Fonts family
verb. -/
def htmlTmpl2 : String := "</title>" ++ htmlTmplFonts ++ "family="

/-- The template from the font weights to the CSS `font-family` verb. -/
def htmlTmplStyleHead : String :=
  "@300;400;600;700&display=swap\" rel=\"stylesheet\">\n    <style>\n"
    ++ "        * \x7b\n            margin: 0;\n            padding: 0;\n"
    ++ "            box-sizing: border-box;\n        \x7d\n        \n"
    ++ "        body \x7b\n            font-family: \x27"

/-- The template between the family verb and the CSS `font-family`
verb. -/
def htmlTmpl3 : String := ":wght" ++ htmlTmplStyleHead

/-- The fixed style sheet between the `font-family` verb and `<body>`
(`%%` of the Go format string is `%`). -/
def htmlTmplCss : String :=
  "\x27, sans-serif;\n            line-height: 1.6;\n            color: #333;\n"
    ++ "            max-width: 800px;\n            margin: 0 auto;\n"
    ++ "            padding: 2rem;\n            background-color: #f9f9f9;\n"
    ++ "        \x7d\n        \n        h1, h2, h3, h4, h5, h6 \x7b\n"
    ++ "            margin-top: 1.5rem;\n            margin-bottom: 1rem;\n"
    ++ "            font-weight: 600;\n            line-height: 1.3;\n        \x7d\n"
    ++ "        \n"
    ++ "        h1 \x7b font-size: 2.5rem; border-bottom: 2px solid #e0e0e0; padding-bottom: 0.5rem; \x7d\n"
    ++ "        h2 \x7b font-size: 2rem; border-bottom: 1px solid #e0e0e0; padding-bottom: 0.3rem; \x7d\n"
    ++ "        h3 \x7b font-size: 1.5rem; \x7d\n"
    ++ "        h4 \x7b font-size: 1.25rem; \x7d\n"
    ++ "        h5 \x7b font-size: 1.1rem; \x7d\n"
    ++ "        h6 \x7b font-size: 1rem; \x7d\n        \n        p \x7b\n"
    ++ "            margin-bottom: 1rem;\n        \x7d\n        \n        a \x7b\n"
    ++ "            color: #0066cc;\n            text-decoration: none;\n"
    ++ "        \x7d\n        \n        a:hover \x7b\n"
    ++ "            text-decoration: underline;\n        \x7d\n        \n"
    ++ "        img \x7b\n            max-width: 100%;\n            height: auto;\n"
    ++ "            display: block;\n            margin: 1.5rem auto;\n"
    ++ "            border-radius: 4px;\n"
    ++ "            box-shadow: 0 2px 8px rgba(0,0,0,0.1);\n        \x7d\n        \n"
    ++ "        code \x7b\n            background-color: #f4f4f4;\n"
    ++ "            padding: 0.2rem 0.4rem;\n            border-radius: 3px;\n"
    ++ "            font-family: \x27Courier New\x27, monospace;\n"
    ++ "            font-size: 0.9em;\n        \x7d\n        \n        pre \x7b\n"
    ++ "            background-color: #f4f4f4;\n            padding: 1rem;\n"
    ++ "            border-radius: 4px;\n            overflow-x: auto;\n"
    ++ "            margin-bottom: 1rem;\n        \x7d\n        \n"
    ++ "        pre code \x7b\n            background-color: transparent;\n"
    ++ "            padding: 0;\n        \x7d\n        \n        blockquote \x7b\n"
    ++ "            border-left: 4px solid #0066cc;\n            padding-left: 1rem;\n"
    ++ "            margin: 1rem 0;\n            color: #666;\n"
    ++ "            font-style: italic;\n        \x7d\n        \n        ul, ol \x7b\n"
    ++ "            margin-bottom: 1rem;\n            padding-left: 2rem;\n"
    ++ "        \x7d\n        \n        li \x7b\n            margin-bottom: 0.5rem;\n"
    ++ "        \x7d\n        \n        table \x7b\n"
    ++ "            border-collapse: collapse;\n            width: 100%;\n"
    ++ "            margin-bottom: 1rem;\n        \x7d\n        \n"
    ++ "        th, td \x7b\n            border: 1px solid #ddd;\n"
    ++ "            padding: 0.75rem;\n            text-align: left;\n        \x7d\n"
    ++ "        \n        th \x7b\n            background-color: #f4f4f4;\n"
    ++ "            font-weight: 600;\n        \x7d\n        \n        hr \x7b\n"
    ++ "            border: none;\n            border-top: 2px solid #e0e0e0;\n"
    ++ "            margin: 2rem 0;\n        \x7d\n    </style>\n</head>\n"

/-- The template between the `font-family` verb and the `<body>` verb. -/
def htmlTmpl4 : String := htmlTmplCss ++ "<body>\n"

/-- The template after the `<body>` verb. -/
def htmlTmpl5 : String := "\n</body>" ++ "\n</html>"

/-- `createHTMLDocument` of `main.go`: the fixed template with the
title, the `+`-joined font name, the font name, and the body fragment
substituted for its four `%s` verbs, in this order. -/
def createHTMLDocument (body fontFamily title : List Char) : List Char :=
  htmlTmpl1.data ++ title ++ htmlTmpl2.data ++ fontURLOf fontFamily
    ++ htmlTmpl3.data ++ fontFamily ++ htmlTmpl4.data ++ body ++ htmlTmpl5.data

/-- The error cases `convertMarkdownToHTML` can report, in the order its
code can raise them. -/
inductive ConvErr where
  | readInputFailed
  | processImagesFailed
  | writeOutputFailed
deriving DecidableEq

/-- `convertMarkdownToHTML` of `main.go`.  Opaque collaborators:
`render` is the gomarkdown parse-and-render pipeline, `dir` is
`filepath.Dir`, `join` is `filepath.Join`, `fsText` is the
`ioutil.ReadFile` of the input file composed with Go's `string(...)`
view of the bytes, `fs` is the `ioutil.ReadFile` used for image files,
and `writeOk` tells whether `ioutil.WriteFile` succeeds on the given
path and contents.  On success returns the full HTML written to
`outputFile` together with the image warnings printed along the way. -/
def convertMarkdownToHTML (render dir : List Char → List Char)
    (join : List Char → List Char → List Char)
    (fsText : List Char → Option (List Char))
    (fs : List Char → Option (List Nat)) (writeOk : List Char → List Char → Bool)
    (inputFile outputFile fontFamily title : List Char) :
    Except ConvErr (List Char × List (List Char)) :=
  match fsText inputFile with
  | none => .error .readInputFailed
  | some mdBytes =>
    let inputDir := dir inputFile
    let processedContent := rewriteMarkdownLinks mdBytes
    match embedImages processedContent inputDir fs join with
    | (_, some _) => .error .processImagesFailed
    | ((processedContent2, warns), none) =>
      let htmlBody := render processedContent2
      let fullHTML := createHTMLDocument htmlBody fontFamily title
      if writeOk outputFile fullHTML then .ok (fullHTML, warns)
      else .error .writeOutputFailed

/-- The observable outcome of a run of `main`: the process exit status
and the output file written (path and contents), if any. -/
structure RunOutcome where
  exit : Nat
  written : Option (List Char × List Char)
deriving DecidableEq

/-- `main` of `main.go` after flag parsing: `fontFamily` and `title` are
the flag values (defaults `"Open Sans"` and `""`), `args` the positional
arguments.  No positional argument, or an input file without the `.md`
extension, exits with status 1 before any file access; otherwise the
output path is the input path with the `.md` suffix replaced by `.html`
and the outcome is that of `convertMarkdownToHTML`. -/
def mainRun (render dir : List Char → List Char)
    (join : List Char → List Char → List Char)
    (fsText : List Char → Option (List Char))
    (fs : List Char → Option (List Nat)) (writeOk : List Char → List Char → Bool)
    (fontFamily title : List Char) (args : List (List Char)) : RunOutcome :=
  match args with
  | [] => ⟨1, none⟩
  | inputFile :: _ =>
    if ".md".data.isSuffixOf inputFile then
      let outputFile := trimSuffix inputFile ".md".data ++ ".html".data
      match convertMarkdownToHTML render dir join fsText fs writeOk inputFile outputFile
          fontFamily title with
      | .error _ => ⟨1, none⟩
      | .ok (fullHTML, _) => ⟨0, some (outputFile, fullHTML)⟩
    else ⟨1, none⟩

theorem scanLinks1_nil : scanLinks1 [] = [] := by simp [scanLinks1]

theorem scanLinks1_cons_match {c : Char} {rest t u r : List Char}
    (hc : c ≠ '!') (h : matchLink rest = some (t, u, r)) :
    scanLinks1 (c :: rest)
      = c :: '[' :: (t ++ ']' :: '(' :: (rewriteLinkURL u ++ ')' :: scanLinks1 r)) := by
  rw [scanLinks1, if_neg hc]
  split
  next heq =>
    rw [h] at heq
    simp only [Option.some.injEq, Prod.mk.injEq] at heq
    obtain ⟨rfl, rfl, rfl⟩ := heq
    rfl
  next heq => rw [h] at heq; simp at heq

theorem scanLinks1_cons_none {c : Char} {rest : List Char}
    (h : matchLink rest = none) :
    scanLinks1 (c :: rest) = c :: scanLinks1 rest := by
  rw [scanLinks1]
  by_cases hc : c = '!'
  · rw [if_pos hc, hc]
  · rw [if_neg hc]
    split
    next heq => rw [h] at heq; simp at heq
    next => rfl

theorem scanLinks1_cons_bang (rest : List Char) :
    scanLinks1 ('!' :: rest) = '!' :: scanLinks1 rest := by
  rw [scanLinks1, if_pos rfl]

theorem scanLinks2_cons_match {c : Char} {rest t u r : List Char}
    (h : matchLink (c :: rest) = some (t, u, r)) :
    scanLinks2 true (c :: rest)
      = '[' :: (t ++ ']' :: '(' :: (rewriteLinkURL u ++ ')' :: scanLinks2 false r)) := by
  rw [scanLinks2, if_pos rfl]
  split
  next heq =>
    rw [h] at heq
    simp only [Option.some.injEq, Prod.mk.injEq] at heq
    obtain ⟨rfl, rfl, rfl⟩ := heq
    rfl
  next heq => rw [h] at heq; simp at heq

theorem scanLinks2_cons_true_none {c : Char} {rest : List Char}
    (h : matchLink (c :: rest) = none) :
    scanLinks2 true (c :: rest) = c :: scanLinks2 (c == '\n') rest := by
  rw [scanLinks2, if_pos rfl]
  split
  next heq => rw [h] at heq; simp at heq
  next => rfl

theorem scanLinks2_cons_false {c : Char} (rest : List Char) :
    scanLinks2 false (c :: rest) = c :: scanLinks2 (c == '\n') rest := by
  rw [scanLinks2]
  simp

theorem scanImages_nil (read : List Char → Option (List Nat)) :
    scanImages read [] = ([], []) := by simp [scanImages]

theorem scanImages_cons_match (read : List Char → Option (List Nat))
    {rest alt u r : List Char}
    (h : matchLink rest = some (alt, u, r)) :
    scanImages read ('!' :: rest)
      = ('!' :: '[' :: (alt ++ ']' :: '(' :: ((embedImageURL read u).1
          ++ ')' :: (scanImages read r).1)),
         (embedImageURL read u).2 ++ (scanImages read r).2) := by
  rw [scanImages, if_pos rfl]
  split
  next heq =>
    rw [h] at heq
    simp only [Option.some.injEq, Prod.mk.injEq] at heq
    obtain ⟨rfl, rfl, rfl⟩ := heq
    rfl
  next heq => rw [h] at heq; simp at heq

theorem scanImages_cons_none (read : List Char → Option (List Nat))
    {c : Char} {rest : List Char}
    (h : matchLink rest = none ∨ c ≠ '!') :
    scanImages read (c :: rest)
      = (c :: (scanImages read rest).1, (scanImages read rest).2) := by
  rw [scanImages]
  by_cases hc : c = '!'
  · rw [if_pos hc]
    rcases h with h | h
    · split
      next heq => rw [h] at heq; simp at heq
      next => rw [hc]
    · exact absurd hc h
  · rw [if_neg hc]

theorem matchLink_none_of_not_lbracket {l : List Char} (h : '[' ∉ l) :
    matchLink l = none := by
  cases l with
  | nil => rfl
  | cons c rest =>
    exact matchLink_cons_of_head _ (fun hc => h (hc ▸ List.mem_cons_self _ _))

theorem scanLinks2_nil (b : Bool) : scanLinks2 b [] = [] := by
  cases b <;> simp [scanLinks2]

theorem scanLinks1_eq_self : ∀ {l : List Char}, '[' ∉ l.tail → scanLinks1 l = l
  | [], _ => scanLinks1_nil
  | c :: rest, h => by
    simp only [List.tail_cons] at h
    have ih := scanLinks1_eq_self (l := rest) (fun hm => h (List.tail_subset rest hm))
    rw [scanLinks1_cons_none (matchLink_none_of_not_lbracket h), ih]

theorem scanLinks1_append : ∀ {a : List Char} (b : List Char), '[' ∉ a →
    matchLink b = none → scanLinks1 (a ++ b) = a ++ scanLinks1 b
  | [], b, _, _ => by simp
  | c :: a', b, ha, hb => by
    simp only [List.mem_cons, not_or] at ha
    have hnone : matchLink (a' ++ b) = none := by
      cases a' with
      | nil => simpa using hb
      | cons d a'' =>
        exact matchLink_cons_of_head _
          (fun hd => ha.2 (hd ▸ List.mem_cons_self _ _))
    rw [List.cons_append, scanLinks1_cons_none hnone,
      scanLinks1_append b ha.2 hb, List.cons_append]

theorem scanLinks2_eq_self : ∀ {l : List Char} (b : Bool), '[' ∉ l →
    scanLinks2 b l = l
  | [], b, _ => scanLinks2_nil b
  | c :: rest, b, h => by
    simp only [List.mem_cons, not_or] at h
    have hnone : matchLink (c :: rest) = none :=
      matchLink_cons_of_head _ (fun hc => h.1 hc.symm)
    have ih := scanLinks2_eq_self (l := rest) (c == '\n') (fun hm => h.2 hm)
    cases b with
    | true => rw [scanLinks2_cons_true_none hnone, ih]
    | false => rw [scanLinks2_cons_false, ih]

theorem scanLinks2_append_snoc : ∀ {a : List Char} {c : Char} (l : List Char)
    (b : Bool), '[' ∉ a → c ≠ '[' →
    scanLinks2 b (a ++ c :: l) = a ++ c :: scanLinks2 (c == '\n') l
  | [], c, l, b, _, hc => by
    have hnone : matchLink (c :: l) = none := matchLink_cons_of_head _ hc
    cases b with
    | true => rw [List.nil_append, scanLinks2_cons_true_none hnone, List.nil_append]
    | false => rw [List.nil_append, scanLinks2_cons_false, List.nil_append]
  | d :: a', c, l, b, ha, hc => by
    simp only [List.mem_cons, not_or] at ha
    have ih := scanLinks2_append_snoc (a := a') (c := c) l (d == '\n') ha.2 hc
    cases b with
    | true =>
      have hd : matchLink (d :: (a' ++ c :: l)) = none :=
        matchLink_cons_of_head _ (fun hd => ha.1 hd.symm)
      rw [List.cons_append, scanLinks2_cons_true_none hd, ih, List.cons_append]
    | false => rw [List.cons_append, scanLinks2_cons_false, ih, List.cons_append]

theorem scanImages_eq_self (read : List Char → Option (List Nat)) :
    ∀ {l : List Char}, '[' ∉ l → scanImages read l = (l, [])
  | [], _ => scanImages_nil read
  | c :: rest, h => by
    simp only [List.mem_cons, not_or] at h
    rw [scanImages_cons_none read
        (Or.inl (matchLink_none_of_not_lbracket (fun hm => h.2 hm))),
      scanImages_eq_self read (fun hm => h.2 hm)]

theorem scanImages_append (read : List Char → Option (List Nat)) :
    ∀ {a : List Char} (b : List Char), '[' ∉ a → matchLink b = none →
    scanImages read (a ++ b)
      = (a ++ (scanImages read b).1, (scanImages read b).2)
  | [], b, _, _ => by simp
  | c :: a', b, ha, hb => by
    simp only [List.mem_cons, not_or] at ha
    have hnone : matchLink (a' ++ b) = none := by
      cases a' with
      | nil => simpa using hb
      | cons d a'' =>
        exact matchLink_cons_of_head _
          (fun hd => ha.2 (hd ▸ List.mem_cons_self _ _))
    rw [List.cons_append, scanImages_cons_none read (Or.inl hnone),
      scanImages_append read b ha.2 hb, List.cons_append]

theorem suffix_of_length_le : ∀ {s a b : List Char}, s <:+ a ++ b →
    s.length ≤ b.length → s <:+ b
  | s, [], b, h, _ => h
  | s, c :: a', b, h, hl => by
    rcases List.suffix_cons_iff.mp h with h1 | h1
    · exfalso
      have : s.length = a'.length + b.length + 1 := by
        rw [h1]; simp
        try omega
      omega
    · exact suffix_of_length_le h1 hl

theorem not_md_suffix_of_html (v : List Char) :
    ¬ (".md".data <:+ v ++ ".html".data) := by
  intro h
  have h2 : ".md".data <:+ ".html".data :=
    suffix_of_length_le h (by decide)
  exact (by decide : ¬ (".md".data <:+ ".html".data)) h2

theorem rewriteLinkURL_skip {u : List Char}
    (h : "http://".data <+: u ∨ "https://".data <+: u ∨ "#".data <+: u) :
    rewriteLinkURL u = u := by
  have hc : ("http://".data.isPrefixOf u || "https://".data.isPrefixOf u
      || "#".data.isPrefixOf u) = true := by
    simp only [Bool.or_eq_true, List.isPrefixOf_iff_prefix]
    tauto
  rw [rewriteLinkURL, if_pos hc]

theorem rewriteLinkURL_md {v : List Char}
    (h1 : ¬ ("http://".data <+: v ++ ".md".data))
    (h2 : ¬ ("https://".data <+: v ++ ".md".data))
    (h3 : ¬ ("#".data <+: v ++ ".md".data)) :
    rewriteLinkURL (v ++ ".md".data) = v ++ ".html".data := by
  rw [rewriteLinkURL, if_neg
    (by simp only [Bool.or_eq_true, List.isPrefixOf_iff_prefix]; tauto)]
  rw [if_pos (by
    simp only [List.isSuffixOf_iff_suffix]
    exact List.suffix_append v ".md".data)]
  have hlen : (v ++ ".md".data).length - ".md".data.length = v.length := by
    simp
  rw [hlen, List.take_left]

theorem rewriteLinkURL_no_md {u : List Char} (h : ¬ (".md".data <:+ u)) :
    rewriteLinkURL u = u := by
  rw [rewriteLinkURL]
  split
  · rfl
  · rw [if_neg (by simp only [List.isSuffixOf_iff_suffix]; exact h)]

theorem rewriteLinkURL_changes_iff (u : List Char) :
    rewriteLinkURL u ≠ u ↔
      (¬ ("http://".data <+: u) ∧ ¬ ("https://".data <+: u)
        ∧ ¬ ("#".data <+: u)) ∧ ".md".data <:+ u := by
  constructor
  · intro hne
    by_cases hp : "http://".data <+: u ∨ "https://".data <+: u ∨ "#".data <+: u
    · exact absurd (rewriteLinkURL_skip hp) hne
    · by_cases hs : ".md".data <:+ u
      · exact ⟨by tauto, hs⟩
      · exact absurd (rewriteLinkURL_no_md hs) hne
  · rintro ⟨⟨h1, h2, h3⟩, hs⟩
    obtain ⟨v, rfl⟩ := hs
    rw [rewriteLinkURL_md h1 h2 h3]
    intro heq
    have := congrArg List.length heq
    simp at this

theorem trimSuffix_append (v s : List Char) : trimSuffix (v ++ s) s = v := by
  rw [trimSuffix, if_pos (by
    simp only [List.isSuffixOf_iff_suffix]
    exact List.suffix_append v s)]
  have hlen : (v ++ s).length - s.length = v.length := by simp
  rw [hlen, List.take_left]

theorem not_mem_append_of {x : Char} {a b : List Char}
    (ha : x ∉ a) (hb : x ∉ b) : x ∉ a ++ b := by
  simp only [List.mem_append, not_or]
  exact ⟨ha, hb⟩

theorem not_mem_link_span {x : Char} {text mid suf : List Char}
    (ht : x ∉ text) (hm : x ∉ mid) (hs : x ∉ suf)
    (h1 : x ≠ ']') (h2 : x ≠ '(') (h3 : x ≠ ')') :
    x ∉ text ++ ']' :: '(' :: (mid ++ ')' :: suf) := by
  simp only [List.mem_append, List.mem_cons, not_or]
  tauto

theorem scanLinks1_cons_eq_self {c : Char} {l : List Char} (h : '[' ∉ l) :
    scanLinks1 (c :: l) = c :: l :=
  scanLinks1_eq_self h

/-- Claim C1, amended form (helper-level statement used below). -/
theorem rewriteMarkdownLinks_isolated (pre text target suf : List Char)
    (hpre : '[' ∉ pre) (hlast : pre.getLast? ≠ some '!')
    (htext : ']' ∉ text) (htextL : '[' ∉ text)
    (htar : ')' ∉ target) (htarL : '[' ∉ target)
    (hsuf : '[' ∉ suf)
    (h1 : ¬ ("http://".data <+: target)) (h2 : ¬ ("https://".data <+: target))
    (h3 : ¬ ("#".data <+: target)) (hmd : ".md".data <:+ target) :
    rewriteMarkdownLinks (pre ++ '[' :: (text ++ ']' :: '(' :: (target ++ ')' :: suf)))
      = pre ++ '[' :: (text ++ ']' :: '(' ::
          ((trimSuffix target ".md".data ++ ".html".data) ++ ')' :: suf)) := by
  obtain ⟨v, rfl⟩ := hmd
  rw [trimSuffix_append]
  have hvL : '[' ∉ v := fun hm => htarL (List.mem_append_left _ hm)
  have hvR : ')' ∉ v := fun hm => htar (List.mem_append_left _ hm)
  have hmdL : '[' ∉ v ++ ".md".data :=
    not_mem_append_of hvL (by decide)
  have hhtmlL : '[' ∉ v ++ ".html".data :=
    not_mem_append_of hvL (by decide)
  have hhtmlR : ')' ∉ v ++ ".html".data :=
    not_mem_append_of hvR (by decide)
  have htarne : v ++ ".md".data ≠ [] := by simp
  have hne' : v ++ ".html".data ≠ [] := by simp
  have hMmd : '[' ∉ text ++ ']' :: '(' :: ((v ++ ".md".data) ++ ')' :: suf) :=
    not_mem_link_span htextL hmdL hsuf (by decide) (by decide) (by decide)
  have hMhtml : '[' ∉ text ++ ']' :: '(' :: ((v ++ ".html".data) ++ ')' :: suf) :=
    not_mem_link_span htextL hhtmlL hsuf (by decide) (by decide) (by decide)
  have hrw : rewriteLinkURL (v ++ ".md".data) = v ++ ".html".data :=
    rewriteLinkURL_md h1 h2 h3
  have hrw2 : rewriteLinkURL (v ++ ".html".data) = v ++ ".html".data :=
    rewriteLinkURL_no_md (not_md_suffix_of_html v)
  have hmatch := @matchLink_mk text (v ++ ".md".data) suf
    htext htar htarne
  have hmatch2 := @matchLink_mk text (v ++ ".html".data) suf
    htext hhtmlR hne'
  rw [rewriteMarkdownLinks]
  rcases List.eq_nil_or_concat pre with rfl | ⟨p', c, rfl⟩
  · rw [List.nil_append, List.nil_append,
      scanLinks1_cons_eq_self hMmd,
      scanLinks2_cons_match hmatch, hrw,
      scanLinks2_eq_self false hsuf]
  · simp only [List.concat_eq_append] at hpre hlast ⊢
    have hcL : c ≠ '[' := fun hc => hpre (List.mem_append_right _ (List.mem_singleton.mpr hc.symm))
    have hpL : '[' ∉ p' := fun hm => hpre (List.mem_append_left _ hm)
    have hcB : c ≠ '!' := by
      intro hc
      apply hlast
      rw [List.getLast?_concat, hc]
    have hassoc : (p' ++ [c]) ++ '[' :: (text ++ ']' :: '(' :: ((v ++ ".md".data) ++ ')' :: suf))
        = p' ++ c :: '[' :: (text ++ ']' :: '(' :: ((v ++ ".md".data) ++ ')' :: suf)) := by
      simp
    rw [hassoc,
      scanLinks1_append _ hpL (matchLink_cons_of_head _ hcL),
      scanLinks1_cons_match hcB hmatch, hrw,
      scanLinks1_eq_self (fun hm => hsuf (List.tail_subset suf hm)),
      scanLinks2_append_snoc _ true hpL hcL]
    by_cases hcn : c = '\n'
    · subst hcn
      rw [show (('\n' : Char) == '\n') = true from rfl,
        scanLinks2_cons_match hmatch2, hrw2,
        scanLinks2_eq_self false hsuf]
      simp
    · rw [show (c == '\n') = false from by simp [hcn],
        scanLinks2_cons_false,
        show (('[' : Char) == '\n') = false from rfl,
        scanLinks2_eq_self false hMhtml]
      simp

/-- C1 (corrected, amended form): for an isolated link occurrence — no
other `[` anywhere around it and no `!` right before it — a local target
ending in `.md` is rewritten to the same target with the final `.md`
replaced by `.html`, and every other character of the input is kept
identical.  (As originally stated the claim is false: see the
counterexample theorem, where the second of two adjacent links is not
rewritten because its preceding character was consumed by the earlier
match.) -/
theorem c1_isolated_local_md_link_rewritten
    (pre text target suf : List Char)
    (hpre : '[' ∉ pre) (hlast : pre.getLast? ≠ some '!')
    (htext : ']' ∉ text) (htextL : '[' ∉ text)
    (htar : ')' ∉ target) (htarL : '[' ∉ target)
    (hsuf : '[' ∉ suf)
    (h1 : ¬ ("http://".data <+: target)) (h2 : ¬ ("https://".data <+: target))
    (h3 : ¬ ("#".data <+: target)) (hmd : ".md".data <:+ target) :
    rewriteMarkdownLinks
        (pre ++ '[' :: (text ++ ']' :: '(' :: (target ++ ')' :: suf)))
      = pre ++ '[' :: (text ++ ']' :: '(' ::
          ((trimSuffix target ".md".data ++ ".html".data) ++ ')' :: suf)) :=
  rewriteMarkdownLinks_isolated pre text target suf hpre hlast htext htextL
    htar htarL hsuf h1 h2 h3 hmd

/-- Witness for C1: the amended theorem at the concrete input
`see [a](./x.md) end`. -/
theorem c1_witness :
    rewriteMarkdownLinks "see [a](./x.md) end".data
      = "see [a](./x.html) end".data := by
  have h := c1_isolated_local_md_link_rewritten "see ".data "a".data
    "./x.md".data " end".data (by decide) (by decide) (by decide) (by decide)
    (by decide) (by decide) (by decide) (by decide) (by decide) (by decide)
    ⟨"./x".data, by decide⟩
  exact h

/-- Counterexample for C1 as stated: in `x[a](b.md)[c](d.md)` both link
occurrences are local `.md` links not preceded by `!`, yet the program
rewrites only the first — the second link's preceding character `)` was
consumed by the earlier match, and the second link does not start a
line. -/
theorem c1_counterexample :
    rewriteMarkdownLinks "x[a](b.md)[c](d.md)".data
        = "x[a](b.html)[c](d.md)".data
      ∧ rewriteMarkdownLinks "x[a](b.md)[c](d.md)".data
        ≠ "x[a](b.html)[c](d.html)".data := by
  constructor
  · simp [rewriteMarkdownLinks, scanLinks1, scanLinks2, matchLink, splitAtChar,
      rewriteLinkURL, List.isSuffixOf, List.isPrefixOf]
  · intro h
    rw [show rewriteMarkdownLinks "x[a](b.md)[c](d.md)".data
        = "x[a](b.html)[c](d.md)".data from by
      simp [rewriteMarkdownLinks, scanLinks1, scanLinks2, matchLink, splitAtChar,
        rewriteLinkURL, List.isSuffixOf, List.isPrefixOf]] at h
    exact absurd h (by decide)

/-- C5: a link that is the very first token of the input (no preceding
character at all) is still treated as a non-image link: a local `.md`
target is rewritten to `.html` by the second, line-anchored pass. -/
theorem c5_line_start_link_rewritten (text target suf : List Char)
    (htext : ']' ∉ text) (htextL : '[' ∉ text)
    (htar : ')' ∉ target) (htarL : '[' ∉ target)
    (hsuf : '[' ∉ suf)
    (h1 : ¬ ("http://".data <+: target)) (h2 : ¬ ("https://".data <+: target))
    (h3 : ¬ ("#".data <+: target)) (hmd : ".md".data <:+ target) :
    rewriteMarkdownLinks ('[' :: (text ++ ']' :: '(' :: (target ++ ')' :: suf)))
      = '[' :: (text ++ ']' :: '(' ::
          ((trimSuffix target ".md".data ++ ".html".data) ++ ')' :: suf)) := by
  have h := rewriteMarkdownLinks_isolated [] text target suf (by simp)
    (by simp) htext htextL htar htarL hsuf h1 h2 h3 hmd
  simpa using h

/-- Witness for C5: the spec's own example, `[Guide](./setup.md)` as the
whole input, is rewritten to `[Guide](./setup.html)`. -/
theorem c5_witness :
    rewriteMarkdownLinks "[Guide](./setup.md)".data
      = "[Guide](./setup.html)".data := by
  have h := c5_line_start_link_rewritten "Guide".data "./setup.md".data []
    (by decide) (by decide) (by decide) (by decide) (by decide) (by decide)
    (by decide) (by decide) ⟨"./setup".data, by decide⟩
  exact h

/-- Modelled from the spec (§3, Target classification): a target is an
absolute http(s) URL when it starts with `http://` or `https://`. -/
def classifiesAbsoluteURL (u : List Char) : Prop :=
  "http://".data <+: u ∨ "https://".data <+: u

/-- Modelled from the spec (§3, Target classification): an in-document
anchor starts with `#`. -/
def classifiesAnchor (u : List Char) : Prop := "#".data <+: u

/-- Modelled from the spec (§3, Target classification): a data URI
starts with `data:`. -/
def classifiesDataURI (u : List Char) : Prop := "data:".data <+: u

theorem embedImageURL_skip {read : List Char → Option (List Nat)}
    {u : List Char}
    (h : "http://".data <+: u ∨ "https://".data <+: u ∨ "data:".data <+: u) :
    embedImageURL read u = (u, []) := by
  have hc : ("http://".data.isPrefixOf u || "https://".data.isPrefixOf u
      || "data:".data.isPrefixOf u) = true := by
    simp only [Bool.or_eq_true, List.isPrefixOf_iff_prefix]
    tauto
  rw [embedImageURL, if_pos hc]

theorem embedImageURL_fst_changes_iff (read : List Char → Option (List Nat))
    (u : List Char) :
    (embedImageURL read u).1 ≠ u ↔
      (¬ ("http://".data <+: u) ∧ ¬ ("https://".data <+: u)
        ∧ ¬ ("data:".data <+: u)) ∧ (read u).isSome := by
  by_cases hp : "http://".data <+: u ∨ "https://".data <+: u
      ∨ "data:".data <+: u
  · rw [embedImageURL_skip hp]
    simp only [ne_eq, not_true_eq_false, false_iff, not_and]
    tauto
  · rw [embedImageURL, if_neg (by
      simp only [Bool.or_eq_true, List.isPrefixOf_iff_prefix]
      tauto)]
    match hr : read u with
    | none => simp [hr]
    | some d =>
      simp only [hr, Option.isSome_some, and_true, ne_eq]
      constructor
      · intro _; tauto
      · intro _ heq
        apply hp
        right; right
        have hpref : "data:".data <+:
            ("data:".data ++ getMimeType u ++ ";base64,".data ++ base64Encode d) := by
          refine ⟨getMimeType u ++ ";base64,".data ++ base64Encode d, ?_⟩
          simp [List.append_assoc]
        exact heq ▸ hpref

/-- C2 (corrected, amended form): what each pass's target rewrite
actually changes.  A link target is rewritten iff it is not an absolute
http(s) URL, not an anchor, and ends in `.md` — the link pass does NOT
exempt `data:` targets, which is where the claim as stated fails.  An
image target is rewritten iff it is not an absolute http(s) URL, not a
data URI, and its resolved file is readable — the image pass does not
exempt anchors.  In all other cases the target is passed through
byte-for-byte. -/
theorem c2_target_rewritten_iff (read : List Char → Option (List Nat))
    (u : List Char) :
    (rewriteLinkURL u ≠ u ↔
      (¬ classifiesAbsoluteURL u ∧ ¬ classifiesAnchor u) ∧ ".md".data <:+ u)
    ∧ ((embedImageURL read u).1 ≠ u ↔
      (¬ classifiesAbsoluteURL u ∧ ¬ classifiesDataURI u) ∧ (read u).isSome) := by
  constructor
  · rw [rewriteLinkURL_changes_iff]
    unfold classifiesAbsoluteURL classifiesAnchor
    tauto
  · rw [embedImageURL_fst_changes_iff]
    unfold classifiesAbsoluteURL classifiesDataURI
    tauto

/-- Counterexample for C2 as stated: the target `data:b.md` classifies
as a data URI, yet the link pass rewrites it (to `data:b.html`) instead
of passing it through byte-for-byte. -/
theorem c2_counterexample :
    classifiesDataURI "data:b.md".data
      ∧ rewriteMarkdownLinks "x[a](data:b.md)".data
          = "x[a](data:b.html)".data
      ∧ rewriteMarkdownLinks "x[a](data:b.md)".data
          ≠ "x[a](data:b.md)".data := by
  refine ⟨⟨"b.md".data, by decide⟩, ?_, ?_⟩
  · simp [rewriteMarkdownLinks, scanLinks1, scanLinks2, matchLink, splitAtChar,
      rewriteLinkURL, List.isSuffixOf, List.isPrefixOf]
  · rw [show rewriteMarkdownLinks "x[a](data:b.md)".data
        = "x[a](data:b.html)".data from by
      simp [rewriteMarkdownLinks, scanLinks1, scanLinks2, matchLink, splitAtChar,
        rewriteLinkURL, List.isSuffixOf, List.isPrefixOf]]
    decide

/-- C6: for every link target prefixed `http://`, `https://` or `#` the
link rewrite keeps the target (and hence the occurrence) unchanged, and
for every image target prefixed `http://`, `https://` or `data:` the
image embedder keeps the occurrence unchanged and prints no warning. -/
theorem c6_prefixed_targets_identity (read : List Char → Option (List Nat))
    (u : List Char) :
    (("http://".data <+: u ∨ "https://".data <+: u ∨ "#".data <+: u) →
      rewriteLinkURL u = u)
    ∧ (("http://".data <+: u ∨ "https://".data <+: u ∨ "data:".data <+: u) →
      embedImageURL read u = (u, [])) :=
  ⟨fun h => rewriteLinkURL_skip h, fun h => embedImageURL_skip h⟩

/-- Witness for C6: an anchor link target and an https image target are
left unchanged. -/
theorem c6_witness :
    rewriteLinkURL "#sec.md".data = "#sec.md".data
      ∧ embedImageURL (fun _ => some [1, 2]) "https://a/logo.png".data
          = ("https://a/logo.png".data, []) :=
  ⟨(c6_prefixed_targets_identity (fun _ => some [1, 2]) _).1
      (Or.inr (Or.inr (by decide))),
    (c6_prefixed_targets_identity (fun _ => some [1, 2]) _).2
      (Or.inr (Or.inl (by decide)))⟩

theorem embedImageURL_fail {read : List Char → Option (List Nat)} {u : List Char}
    (h1 : ¬ ("http://".data <+: u)) (h2 : ¬ ("https://".data <+: u))
    (h3 : ¬ ("data:".data <+: u)) (hr : read u = none) :
    embedImageURL read u = (u, [u]) := by
  rw [embedImageURL, if_neg (by
    simp only [Bool.or_eq_true, List.isPrefixOf_iff_prefix]
    tauto)]
  simp only [hr]

/-- C3: an image reference whose resolved file cannot be read is left
byte-for-byte unchanged, its path is emitted as a warning subject, the
scan continues (an isolated occurrence shown here), and `embedImages`
still returns a `nil` error; moreover, whatever the image file system
returns, the driver still exits 0 and still writes the output file as
long as the input file reads and the write succeeds. -/
theorem c3_unreadable_image_recovery :
    (∀ (fs : List Char → Option (List Nat))
       (join : List Char → List Char → List Char)
       (baseDir pre alt target suf : List Char),
       '[' ∉ pre → ']' ∉ alt → '[' ∉ alt → ')' ∉ target → '[' ∉ target →
       target ≠ [] → '[' ∉ suf →
       ¬ ("http://".data <+: target) → ¬ ("https://".data <+: target) →
       ¬ ("data:".data <+: target) →
       fs (join baseDir target) = none →
       embedImages
           (pre ++ '!' :: '[' :: (alt ++ ']' :: '(' :: (target ++ ')' :: suf)))
           baseDir fs join
         = ((pre ++ '!' :: '[' :: (alt ++ ']' :: '(' :: (target ++ ')' :: suf)),
             [target]), none))
    ∧ (∀ (render dir : List Char → List Char)
         (join : List Char → List Char → List Char)
         (fsText : List Char → Option (List Char))
         (fs : List Char → Option (List Nat))
         (writeOk : List Char → List Char → Bool)
         (font title input content : List Char) (rest : List (List Char)),
       fsText input = some content →
       ".md".data.isSuffixOf input = true →
       (∀ p c, writeOk p c = true) →
       (mainRun render dir join fsText fs writeOk font title (input :: rest)).exit = 0
         ∧ (mainRun render dir join fsText fs writeOk font title
             (input :: rest)).written.isSome) := by
  constructor
  · intro fs join baseDir pre alt target suf hpre halt haltL htar htarL htne
      hsuf h1 h2 h3 hread
    rw [embedImages]
    have hmatch := @matchLink_mk alt target suf halt htar htne
    rw [scanImages_append _ _ hpre (matchLink_cons_of_head _ (by decide)),
      scanImages_cons_match _ hmatch,
      embedImageURL_fail h1 h2 h3 hread,
      scanImages_eq_self _ hsuf]
    simp
  · intro render dir join fsText fs writeOk font title input content rest hin
      hsuffix hwrite
    simp only [mainRun, hsuffix, if_true, convertMarkdownToHTML, hin,
      embedImages, hwrite, if_true]
    simp

/-- Witness for C3: a missing image is kept with a warning, and a run
whose image reads all fail still exits 0 and writes its output. -/
theorem c3_witness :
    embedImages ([] ++ '!' :: '[' :: ("a".data ++ ']' :: '(' ::
          ("m.png".data ++ ')' :: [])))
        "d".data (fun _ => none) (fun a b => a ++ b)
      = (([] ++ '!' :: '[' :: ("a".data ++ ']' :: '(' ::
          ("m.png".data ++ ')' :: [])), ["m.png".data]), none)
    ∧ (mainRun (fun l => l) (fun _ => []) (fun a b => a ++ b)
        (fun _ => some "hi".data) (fun _ => none) (fun _ _ => true)
        "f".data [] ("doc.md".data :: [])).exit = 0
    ∧ (mainRun (fun l => l) (fun _ => []) (fun a b => a ++ b)
        (fun _ => some "hi".data) (fun _ => none) (fun _ _ => true)
        "f".data [] ("doc.md".data :: [])).written.isSome := by
  refine ⟨?_, ?_, ?_⟩
  · exact c3_unreadable_image_recovery.1 (fun _ => none) (fun a b => a ++ b)
      "d".data [] "a".data "m.png".data [] (by decide) (by decide) (by decide)
      (by decide) (by decide) (by decide) (by decide) (by decide) (by decide)
      (by decide) rfl
  · exact (c3_unreadable_image_recovery.2 (fun l => l) (fun _ => [])
      (fun a b => a ++ b) (fun _ => some "hi".data) (fun _ => none)
      (fun _ _ => true) "f".data [] "doc.md".data "hi".data [] rfl
      (by decide) (fun _ _ => rfl)).1
  · exact (c3_unreadable_image_recovery.2 (fun l => l) (fun _ => [])
      (fun a b => a ++ b) (fun _ => some "hi".data) (fun _ => none)
      (fun _ _ => true) "f".data [] "doc.md".data "hi".data [] rfl
      (by decide) (fun _ _ => rfl)).2

theorem toLowerChar_toNat {c : Char} (h1 : 'A' ≤ c) (h2 : c ≤ 'Z') :
    (toLowerChar c).toNat = c.toNat + 32 := by
  have h1' : 65 ≤ c.toNat := by
    simpa [Char.le_def, Char.toNat] using h1
  have h2' : c.toNat ≤ 90 := by
    simpa [Char.le_def, Char.toNat] using h2
  have hv : Nat.isValidChar (c.toNat + 32) := Or.inl (by omega)
  rw [toLowerChar, if_pos ⟨h1, h2⟩, Char.ofNat, dif_pos hv]
  simp [Char.ofNatAux, Char.toNat, UInt32.toNat, BitVec.toNat_ofNat]

theorem toLowerChar_toNat_bounds {c : Char} (h1 : 'A' ≤ c) (h2 : c ≤ 'Z') :
    97 ≤ (toLowerChar c).toNat ∧ (toLowerChar c).toNat ≤ 122 := by
  have h1' : 65 ≤ c.toNat := by
    simpa [Char.le_def, Char.toNat] using h1
  have h2' : c.toNat ≤ 90 := by
    simpa [Char.le_def, Char.toNat] using h2
  rw [toLowerChar_toNat h1 h2]
  omega

theorem toLowerChar_eq_iff (c : Char) (d : Char) (hd : d.toNat < 65) :
    toLowerChar c = d ↔ c = d := by
  by_cases hr : 'A' ≤ c ∧ c ≤ 'Z'
  · have hb := toLowerChar_toNat_bounds hr.1 hr.2
    have h1' : 65 ≤ c.toNat := by
      simpa [Char.le_def, Char.toNat] using hr.1
    constructor
    · intro he
      exfalso
      rw [he] at hb
      omega
    · intro he
      exfalso
      rw [he] at h1'
      omega
  · by_cases hi : c = '\u0130'
    · subst hi
      rw [toLowerChar, if_neg hr, if_pos rfl]
      constructor
      · intro he; rw [← he] at hd; exact absurd hd (by decide)
      · intro he; rw [← he] at hd; exact absurd hd (by decide)
    · by_cases hk : c = '\u212A'
      · subst hk
        rw [toLowerChar, if_neg hr, if_neg (by decide), if_pos rfl]
        constructor
        · intro he; rw [← he] at hd; exact absurd hd (by decide)
        · intro he; rw [← he] at hd; exact absurd hd (by decide)
      · rw [toLowerChar, if_neg hr, if_neg hi, if_neg hk]

theorem toLowerChar_idem (c : Char) :
    toLowerChar (toLowerChar c) = toLowerChar c := by
  by_cases hr : 'A' ≤ c ∧ c ≤ 'Z'
  · have hb := toLowerChar_toNat_bounds hr.1 hr.2
    have hno : ¬ ('A' ≤ toLowerChar c ∧ toLowerChar c ≤ 'Z') := by
      intro hcond
      have h2' : (toLowerChar c).toNat ≤ 90 := by
        simpa [Char.le_def, Char.toNat] using hcond.2
      omega
    have hni : toLowerChar c ≠ '\u0130' := by
      intro he
      rw [he] at hb
      exact absurd hb.2 (by decide)
    have hnk : toLowerChar c ≠ '\u212A' := by
      intro he
      rw [he] at hb
      exact absurd hb.2 (by decide)
    conv_lhs => rw [toLowerChar]
    rw [if_neg hno, if_neg hni, if_neg hnk]
  · by_cases hi : c = '\u0130'
    · subst hi; decide
    · by_cases hk : c = '\u212A'
      · subst hk; decide
      · have hc : toLowerChar c = c := by
          rw [toLowerChar, if_neg hr, if_neg hi, if_neg hk]
        rw [hc]
        exact hc

theorem stringsToLower_idem (l : List Char) :
    stringsToLower (stringsToLower l) = stringsToLower l := by
  simp only [stringsToLower, List.map_map]
  simp [Function.comp, toLowerChar_idem]

theorem toLowerChar_ne_iff (c d : Char) (hd : d.toNat < 65) :
    (toLowerChar c ≠ d) ↔ (c ≠ d) :=
  not_congr (toLowerChar_eq_iff c d hd)

theorem pathExt_stringsToLower (p : List Char) :
    pathExt (stringsToLower p) = stringsToLower (pathExt p) := by
  have hslash : ((fun c : Char => decide (c ≠ '/')) ∘ toLowerChar)
      = (fun c : Char => decide (c ≠ '/')) := by
    funext c
    simp only [Function.comp_apply]
    rw [decide_eq_decide]
    exact toLowerChar_ne_iff c '/' (by decide)
  have hdotp : ((fun c : Char => decide (c ≠ '.')) ∘ toLowerChar)
      = (fun c : Char => decide (c ≠ '.')) := by
    funext c
    simp only [Function.comp_apply]
    rw [decide_eq_decide]
    exact toLowerChar_ne_iff c '.' (by decide)
  simp only [pathExt, stringsToLower]
  rw [← List.map_reverse, List.takeWhile_map, hslash,
    apply_ite (List.map toLowerChar),
    List.takeWhile_map, hdotp, ← List.map_reverse, List.map_cons,
    show toLowerChar '.' = '.' from by decide, List.map_nil]
  have hmem : ('.' ∈ (p.reverse.takeWhile (fun c : Char => decide (c ≠ '/'))).map
      toLowerChar) ↔ ('.' ∈ p.reverse.takeWhile (fun c : Char => decide (c ≠ '/'))) := by
    simp only [List.mem_map]
    constructor
    · rintro ⟨x, hx, hfx⟩
      rw [toLowerChar_eq_iff x '.' (by decide)] at hfx
      exact hfx ▸ hx
    · intro h
      exact ⟨'.', h, by decide⟩
  by_cases hdot : '.' ∈ p.reverse.takeWhile (fun c : Char => decide (c ≠ '/'))
  · rw [if_pos (hmem.mpr hdot), if_pos hdot]
  · rw [if_neg (fun hh => hdot (hmem.mp hh)), if_neg hdot]

theorem getMimeType_stringsToLower (v : List Char) :
    getMimeType (stringsToLower v) = getMimeType v := by
  simp only [getMimeType, pathExt_stringsToLower, stringsToLower_idem]

/-- Modelled from the spec (§4.2, MIME inference): the fixed
case-insensitive extension table with `image/png` as the default for any
unrecognized extension, applied to an already-lowercased extension. -/
def mimeTableSpec (ext : List Char) : List Char :=
  if ext = ".jpg".data then "image/jpeg".data
  else if ext = ".jpeg".data then "image/jpeg".data
  else if ext = ".png".data then "image/png".data
  else if ext = ".gif".data then "image/gif".data
  else if ext = ".bmp".data then "image/bmp".data
  else if ext = ".webp".data then "image/webp".data
  else if ext = ".svg".data then "image/svg+xml".data
  else if ext = ".ico".data then "image/x-icon".data
  else "image/png".data

theorem getMimeType_eq_spec (u : List Char) :
    getMimeType u = mimeTableSpec (stringsToLower (pathExt u)) := rfl

/-- The Unicode special case the lowering model must keep:
`unicode.ToLower` maps U+0130 `İ` to ASCII `i`, so the uppercase
Turkish extension `.GİF` hits the `.gif` table entry rather than the
`image/png` default. -/
theorem getMimeType_dotted_capital_I :
    getMimeType "a.GİF".data = "image/gif".data := by decide

theorem b64Value_b64Char : ∀ n : Fin 64, b64Value (b64Char n.val) = some n.val := by
  decide

theorem b64Char_ne_pad : ∀ n : Fin 64, b64Char n.val ≠ '=' := by
  decide

theorem base64_roundtrip : ∀ (d : List Nat), (∀ b ∈ d, b < 256) →
    base64Decode (base64Encode d) = some d
  | [], _ => rfl
  | [a], h => by
    have ha : a < 256 := h a (by simp)
    have e1 : b64Value (b64Char (a / 4)) = some (a / 4) :=
      b64Value_b64Char ⟨a / 4, by omega⟩
    have e2 : b64Value (b64Char (a % 4 * 16)) = some (a % 4 * 16) :=
      b64Value_b64Char ⟨a % 4 * 16, by omega⟩
    rw [base64Encode, base64Decode, if_pos ⟨rfl, rfl, rfl⟩, e1, e2]
    show (if (a % 4 * 16) % 16 = 0 then some [a / 4 * 4 + (a % 4 * 16) / 16]
      else none) = some [a]
    rw [if_pos (show (a % 4 * 16) % 16 = 0 from by omega),
      show a / 4 * 4 + (a % 4 * 16) / 16 = a from by omega]
  | [a, b], h => by
    have ha : a < 256 := h a (by simp)
    have hb : b < 256 := h b (by simp)
    have e1 : b64Value (b64Char (a / 4)) = some (a / 4) :=
      b64Value_b64Char ⟨a / 4, by omega⟩
    have e2 : b64Value (b64Char (a % 4 * 16 + b / 16))
        = some (a % 4 * 16 + b / 16) :=
      b64Value_b64Char ⟨a % 4 * 16 + b / 16, by omega⟩
    have e3 : b64Value (b64Char (b % 16 * 4)) = some (b % 16 * 4) :=
      b64Value_b64Char ⟨b % 16 * 4, by omega⟩
    rw [base64Encode, base64Decode,
      if_neg (by
        rintro ⟨h3, -⟩
        exact b64Char_ne_pad ⟨b % 16 * 4, by omega⟩ h3),
      if_pos ⟨rfl, rfl⟩, e1, e2, e3]
    show (if (b % 16 * 4) % 4 = 0 then
        some [a / 4 * 4 + (a % 4 * 16 + b / 16) / 16,
          (a % 4 * 16 + b / 16) % 16 * 16 + (b % 16 * 4) / 4]
      else none) = some [a, b]
    rw [if_pos (show (b % 16 * 4) % 4 = 0 from by omega),
      show a / 4 * 4 + (a % 4 * 16 + b / 16) / 16 = a from by omega,
      show (a % 4 * 16 + b / 16) % 16 * 16 + (b % 16 * 4) / 4 = b from by omega]
  | a :: b :: c :: rest, h => by
    have ha : a < 256 := h a (by simp)
    have hb : b < 256 := h b (by simp)
    have hc : c < 256 := h c (by simp)
    have ih := base64_roundtrip rest (fun x hx => h x (by simp [hx]))
    have e1 : b64Value (b64Char (a / 4)) = some (a / 4) :=
      b64Value_b64Char ⟨a / 4, by omega⟩
    have e2 : b64Value (b64Char (a % 4 * 16 + b / 16))
        = some (a % 4 * 16 + b / 16) :=
      b64Value_b64Char ⟨a % 4 * 16 + b / 16, by omega⟩
    have e3 : b64Value (b64Char (b % 16 * 4 + c / 64))
        = some (b % 16 * 4 + c / 64) :=
      b64Value_b64Char ⟨b % 16 * 4 + c / 64, by omega⟩
    have e4 : b64Value (b64Char (c % 64)) = some (c % 64) :=
      b64Value_b64Char ⟨c % 64, by omega⟩
    rw [base64Encode, base64Decode,
      if_neg (by
        rintro ⟨h3, -⟩
        exact b64Char_ne_pad ⟨b % 16 * 4 + c / 64, by omega⟩ h3),
      if_neg (by
        rintro ⟨h4, -⟩
        exact b64Char_ne_pad ⟨c % 64, by omega⟩ h4),
      e1, e2, e3, e4]
    show (do
        let tail ← base64Decode (base64Encode rest)
        some ((a / 4 * 4 + (a % 4 * 16 + b / 16) / 16)
          :: ((a % 4 * 16 + b / 16) % 16 * 16 + (b % 16 * 4 + c / 64) / 4)
          :: ((b % 16 * 4 + c / 64) % 4 * 64 + c % 64) :: tail))
      = some (a :: b :: c :: rest)
    rw [ih]
    show some ((a / 4 * 4 + (a % 4 * 16 + b / 16) / 16)
        :: ((a % 4 * 16 + b / 16) % 16 * 16 + (b % 16 * 4 + c / 64) / 4)
        :: ((b % 16 * 4 + c / 64) % 4 * 64 + c % 64) :: rest)
      = some (a :: b :: c :: rest)
    rw [show a / 4 * 4 + (a % 4 * 16 + b / 16) / 16 = a from by omega,
      show (a % 4 * 16 + b / 16) % 16 * 16 + (b % 16 * 4 + c / 64) / 4 = b from by
        omega,
      show (b % 16 * 4 + c / 64) % 4 * 64 + c % 64 = c from by omega]

/-- C4: a readable local image is rewritten to exactly
`data:<mime>;base64,<b64>`, where standard base64 decoding of `<b64>`
recovers the file bytes exactly, and the MIME type is the
case-insensitive lookup of the target's extension in the fixed table
(default `image/png`).  Case-insensitivity is stated both as the lookup
of the lowercased extension (`mimeTableSpec`, modelled from the spec's
table) and as invariance of `getMimeType` under lowercasing of the
whole target. -/
theorem c4_readable_image_embedding (read : List Char → Option (List Nat))
    (u : List Char) (d : List Nat)
    (h1 : ¬ ("http://".data <+: u)) (h2 : ¬ ("https://".data <+: u))
    (h3 : ¬ ("data:".data <+: u))
    (hr : read u = some d) (hbytes : ∀ b ∈ d, b < 256) :
    embedImageURL read u
        = ("data:".data ++ getMimeType u ++ ";base64,".data
            ++ base64Encode d, [])
      ∧ base64Decode (base64Encode d) = some d
      ∧ getMimeType u = mimeTableSpec (stringsToLower (pathExt u))
      ∧ getMimeType (stringsToLower u) = getMimeType u := by
  refine ⟨?_, base64_roundtrip d hbytes, getMimeType_eq_spec u,
    getMimeType_stringsToLower u⟩
  rw [embedImageURL, if_neg (by
    simp only [Bool.or_eq_true, List.isPrefixOf_iff_prefix]
    tauto)]
  simp only [hr]

/-- Witness for C4: a two-byte file behind the uppercase Turkish target
`photo.GİF` — whose extension lowercases through the U+0130 special
case to `.gif` — is embedded with that MIME type. -/
theorem c4_witness :
    embedImageURL (fun _ => some [0, 1]) "photo.GİF".data
        = ("data:".data ++ getMimeType "photo.GİF".data ++ ";base64,".data
            ++ base64Encode [0, 1], [])
      ∧ base64Decode (base64Encode [0, 1]) = some [0, 1]
      ∧ getMimeType "photo.GİF".data
          = mimeTableSpec (stringsToLower (pathExt "photo.GİF".data))
      ∧ getMimeType (stringsToLower "photo.GİF".data)
          = getMimeType "photo.GİF".data :=
  c4_readable_image_embedding (fun _ => some [0, 1]) "photo.GİF".data [0, 1]
    (by decide) (by decide) (by decide) rfl (by decide)

/-- C7: an input argument without the `.md` extension makes the driver
exit with status 1 and write nothing; and whenever the driver does write
a file, its path is the input path with the trailing `.md` stripped and
`.html` appended. -/
theorem c7_input_extension_gate (render dir : List Char → List Char)
    (join : List Char → List Char → List Char)
    (fsText : List Char → Option (List Char))
    (fs : List Char → Option (List Nat))
    (writeOk : List Char → List Char → Bool)
    (font title input : List Char) (rest : List (List Char)) :
    (¬ (".md".data <:+ input) →
      mainRun render dir join fsText fs writeOk font title (input :: rest)
        = ⟨1, none⟩)
    ∧ (∀ p h,
      (mainRun render dir join fsText fs writeOk font title
          (input :: rest)).written = some (p, h) →
      p = trimSuffix input ".md".data ++ ".html".data) := by
  constructor
  · intro hn
    rw [mainRun, if_neg (by
      simp only [List.isSuffixOf_iff_suffix]
      exact hn)]
  · intro p h hw
    by_cases hs : ".md".data.isSuffixOf input
    · rw [mainRun, if_pos hs] at hw
      dsimp only at hw
      split at hw
      · simp at hw
      · simp only [RunOutcome.written] at hw
        injection hw with hw
        injection hw with hw1 hw2
        exact hw1.symm
    · rw [mainRun, if_neg hs] at hw
      simp at hw

/-- Witness for C7: with a `.txt` input the driver exits 1 and writes
nothing. -/
theorem c7_witness :
    mainRun (fun l => l) (fun _ => []) (fun a b => a ++ b)
      (fun _ => some []) (fun _ => none) (fun _ _ => true)
      "f".data [] ("notes.txt".data :: []) = ⟨1, none⟩ :=
  (c7_input_extension_gate (fun l => l) (fun _ => []) (fun a b => a ++ b)
    (fun _ => some []) (fun _ => none) (fun _ _ => true)
    "f".data [] "notes.txt".data []).1 (by decide)

/-- C9: `embedImages` always returns a `nil` error, so the driver's
"failed to process images" branch is unreachable: no run of
`convertMarkdownToHTML` can produce that error. -/
theorem c9_embed_images_error_nil :
    (∀ (content baseDir : List Char) (fs : List Char → Option (List Nat))
       (join : List Char → List Char → List Char),
      (embedImages content baseDir fs join).2 = none)
    ∧ (∀ (render dir : List Char → List Char)
         (join : List Char → List Char → List Char)
         (fsText : List Char → Option (List Char))
         (fs : List Char → Option (List Nat))
         (writeOk : List Char → List Char → Bool)
         (input output font title : List Char),
      convertMarkdownToHTML render dir join fsText fs writeOk input output
          font title
        ≠ Except.error ConvErr.processImagesFailed) := by
  constructor
  · intro content baseDir fs join
    rfl
  · intro render dir join fsText fs writeOk input output font title
    cases hft : fsText input with
    | none => simp [convertMarkdownToHTML, hft]
    | some content =>
      simp only [convertMarkdownToHTML, hft, embedImages]
      split <;> simp

/-- C8: the assembled document contains `<title>` + title + `</title>`
verbatim (no escaping), a Google-Fonts stylesheet link whose `family`
query parameter is the font name with every space replaced by `+`, and
the fragment verbatim between `<body>` and `</body>`. -/
theorem c8_document_assembler (body fontFamily title : List Char) :
    (("<title>".data ++ title ++ "</title>".data)
        <:+: createHTMLDocument body fontFamily title)
    ∧ (("family=".data
        ++ fontFamily.map (fun c => if c = ' ' then '+' else c)
        ++ ":wght".data) <:+: createHTMLDocument body fontFamily title)
    ∧ (("<body>\n".data ++ body ++ "\n</body>".data)
        <:+: createHTMLDocument body fontFamily title) := by
  refine ⟨⟨htmlTmplHead.data,
      htmlTmplFonts.data ++ "family=".data ++ fontURLOf fontFamily
        ++ htmlTmpl3.data ++ fontFamily ++ htmlTmpl4.data ++ body
        ++ htmlTmpl5.data, ?_⟩,
    ⟨htmlTmpl1.data ++ title ++ "</title>".data ++ htmlTmplFonts.data,
      htmlTmplStyleHead.data ++ fontFamily ++ htmlTmpl4.data ++ body
        ++ htmlTmpl5.data, ?_⟩,
    ⟨htmlTmpl1.data ++ title ++ htmlTmpl2.data ++ fontURLOf fontFamily
        ++ htmlTmpl3.data ++ fontFamily ++ htmlTmplCss.data,
      "\n</html>".data, ?_⟩⟩
  · simp only [createHTMLDocument, htmlTmpl1, htmlTmpl2, String.data_append,
      List.append_assoc]
  · simp only [createHTMLDocument, htmlTmpl2, htmlTmpl3, fontURLOf,
      String.data_append, List.append_assoc]
  · simp only [createHTMLDocument, htmlTmpl4, htmlTmpl5, String.data_append,
      List.append_assoc]

theorem matchLink_empty_target (text rest : List Char) (ht : ']' ∉ text) :
    matchLink ('[' :: (text ++ ']' :: '(' :: ')' :: rest)) = none := by
  rw [matchLink, if_pos rfl, splitAtChar_of_not_mem _ ht]
  dsimp only
  rw [if_pos rfl, show splitAtChar ')' (')' :: rest) = some ([], rest) from by
    rw [splitAtChar, if_pos rfl]]
  dsimp only
  rw [if_pos rfl]

theorem suffix_append_cases : ∀ {s a b : List Char}, s <:+ a ++ b →
    s <:+ b ∨ ∃ a', a' <:+ a ∧ a' ≠ [] ∧ s = a' ++ b
  | _, [], _, h => Or.inl h
  | s, c :: a2, b, h => by
    rcases List.suffix_cons_iff.mp h with h1 | h1
    · exact Or.inr ⟨c :: a2, List.suffix_refl _, by simp, by simpa using h1⟩
    · rcases suffix_append_cases h1 with h2 | ⟨a', ha', hne, rfl⟩
      · exact Or.inl h2
      · exact Or.inr ⟨a', ha'.trans (List.suffix_cons c a2), hne, rfl⟩

theorem scanLinks1_eq_self_of : ∀ {l : List Char},
    (∀ l', l' <:+ l → matchLink l' = none) → scanLinks1 l = l
  | [], _ => scanLinks1_nil
  | c :: rest, h => by
    rw [scanLinks1_cons_none (h rest (List.suffix_cons c rest)),
      scanLinks1_eq_self_of
        (fun l' hl' => h l' (hl'.trans (List.suffix_cons c rest)))]

theorem scanLinks2_eq_self_of : ∀ {l : List Char} (b : Bool),
    (∀ l', l' <:+ l → matchLink l' = none) → scanLinks2 b l = l
  | [], b, _ => scanLinks2_nil b
  | c :: rest, b, h => by
    have hrest : ∀ l', l' <:+ rest → matchLink l' = none :=
      fun l' hl' => h l' (hl'.trans (List.suffix_cons c rest))
    cases b with
    | true =>
      rw [scanLinks2_cons_true_none (h (c :: rest) (List.suffix_refl _)),
        scanLinks2_eq_self_of _ hrest]
    | false => rw [scanLinks2_cons_false, scanLinks2_eq_self_of _ hrest]

theorem scanImages_eq_self_of (read : List Char → Option (List Nat)) :
    ∀ {l : List Char},
    (∀ l', l' <:+ l → matchLink l' = none) → scanImages read l = (l, [])
  | [], _ => scanImages_nil read
  | c :: rest, h => by
    rw [scanImages_cons_none read (Or.inl (h rest (List.suffix_cons c rest))),
      scanImages_eq_self_of read
        (fun l' hl' => h l' (hl'.trans (List.suffix_cons c rest)))]

theorem matchLink_none_everywhere {pre text rest : List Char}
    (hpre : '[' ∉ pre) (ht : ']' ∉ text) (htL : '[' ∉ text) (hr : '[' ∉ rest) :
    ∀ l', l' <:+ (pre ++ '[' :: (text ++ ']' :: '(' :: ')' :: rest)) →
      matchLink l' = none := by
  intro l' hl'
  have hM0 : '[' ∉ (text ++ ']' :: '(' :: ')' :: rest) := by
    simp only [List.mem_append, List.mem_cons, not_or]
    exact ⟨htL, by decide, by decide, by decide, hr⟩
  rcases suffix_append_cases hl' with h | ⟨a', ha', hne, rfl⟩
  · rcases List.suffix_cons_iff.mp h with rfl | h1
    · exact matchLink_empty_target text rest ht
    · cases l' with
      | nil => exact matchLink_nil
      | cons c l'' =>
        exact matchLink_cons_of_head _
          (fun hc => hM0 (hc ▸ h1.subset (List.mem_cons_self c l'')))
  · cases a' with
    | nil => exact absurd rfl hne
    | cons c a'' =>
      rw [List.cons_append]
      exact matchLink_cons_of_head _
        (fun hc => hpre (hc ▸ ha'.subset (List.mem_cons_self c a'')))

/-- C10: a link or image span with an empty target is never matched —
the shared matcher rejects an empty target — so both rewriting passes
leave such a span (in a `[`-free context) byte-for-byte unchanged, and
the image pass emits no warning for it. -/
theorem c10_empty_target_unmatched :
    (∀ (text rest : List Char), ']' ∉ text →
      matchLink ('[' :: (text ++ ']' :: '(' :: ')' :: rest)) = none)
    ∧ (∀ (pre text rest : List Char),
        '[' ∉ pre → ']' ∉ text → '[' ∉ text → '[' ∉ rest →
      rewriteMarkdownLinks (pre ++ '[' :: (text ++ ']' :: '(' :: ')' :: rest))
        = pre ++ '[' :: (text ++ ']' :: '(' :: ')' :: rest))
    ∧ (∀ (fs : List Char → Option (List Nat))
         (join : List Char → List Char → List Char)
         (baseDir pre text rest : List Char),
        '[' ∉ pre → ']' ∉ text → '[' ∉ text → '[' ∉ rest →
      embedImages (pre ++ '!' :: '[' :: (text ++ ']' :: '(' :: ')' :: rest))
          baseDir fs join
        = ((pre ++ '!' :: '[' :: (text ++ ']' :: '(' :: ')' :: rest), []),
            none)) := by
  refine ⟨fun text rest ht => matchLink_empty_target text rest ht, ?_, ?_⟩
  · intro pre text rest hpre ht htL hr
    have hall := matchLink_none_everywhere hpre ht htL hr
    rw [rewriteMarkdownLinks, scanLinks1_eq_self_of hall,
      scanLinks2_eq_self_of _ hall]
  · intro fs join baseDir pre text rest hpre ht htL hr
    have hpre' : '[' ∉ pre ++ ['!'] := by
      simp only [List.mem_append, List.mem_cons, not_or]
      exact ⟨hpre, by decide, by simp⟩
    have hall := matchLink_none_everywhere hpre' ht htL hr
    rw [embedImages,
      show pre ++ '!' :: '[' :: (text ++ ']' :: '(' :: ')' :: rest)
        = (pre ++ ['!']) ++ '[' :: (text ++ ']' :: '(' :: ')' :: rest) from by
          simp,
      scanImages_eq_self_of _ hall]

/-- Witness for C10: the empty-target spans `x[a]()` and `![a]()` are
left unchanged by the respective passes. -/
theorem c10_witness :
    matchLink ('[' :: ("a".data ++ ']' :: '(' :: ')' :: [])) = none
    ∧ rewriteMarkdownLinks "x[a]()".data = "x[a]()".data
    ∧ embedImages "![a]()".data "d".data (fun _ => none) (fun a b => a ++ b)
        = (("![a]()".data, []), none) :=
  ⟨c10_empty_target_unmatched.1 "a".data [] (by decide),
    c10_empty_target_unmatched.2.1 "x".data "a".data [] (by decide) (by decide)
      (by decide) (by decide),
    c10_empty_target_unmatched.2.2 (fun _ => none) (fun a b => a ++ b)
      "d".data [] "a".data [] (by decide) (by decide) (by decide) (by decide)⟩
